import Mathlib

/-!
# Verification of the pyflare execution dispatcher

Shallow embedding of the batch execution dispatcher of the pyflare worker
(`handleExecuteBatch`, `executeItem`, `chunk` in the batch route module, and
the shared output-decoding logic also present in `routes/execute.ts`), together
with proofs of the spec's testable properties.

Modelling conventions:
* JavaScript strings are Lean `String`s; the regex operations used by the code
  (`String.match` with the greedy patterns `__FLARE_RESULT__(.*)__FLARE_RESULT__`
  and `__FLARE_ERROR__(.*)__FLARE_ERROR__`, and `String.includes`) are embedded
  as executable functions on `List Char` (`findSentinel`, `containsTok`) with
  JavaScript semantics: leftmost match start, greedy (maximal) group, `.` not
  matching a newline.
* The external sandbox runtime is a parameter: each `executeItem` call is given
  an `ItemEnv` describing the runtime's behaviour for that call (the uuid drawn
  for the session id, whether `createCodeContext` or `runCode` reject, the
  `SandboxResult` returned, whether `destroy` rejects) and opaque wall-clock
  readings for the timestamps.
* A promise that rejects is `Except.error`; an exception escaping `executeItem`
  is `Except.error` in its `outcome`.
* The non-terminating loop of `chunk` on a non-positive size (the JS loop
  `for (i = 0; i < len; i += size)` never advances) is modelled by `Option`:
  `chunkJS` returns `none` exactly when the JS loop diverges.
-/

set_option autoImplicit false

universe u v

/-! ## String machinery: JS `includes` and the greedy sentinel regexes -/

/-- Boolean prefix test on character lists. -/
def hasPre : List Char → List Char → Bool
  | [], _ => true
  | _ :: _, [] => false
  | p :: ps, c :: cs => p == c && hasPre ps cs

/-- JS `s.includes(m)`: some position of `s` starts with `m`. -/
def containsTok (m : List Char) : List Char → Bool
  | [] => hasPre m []
  | c :: rest => hasPre m (c :: rest) || containsTok m rest

/-- Greedy group of the regex `(.*)m` at a fixed start: the longest prefix `g`
of the input that contains no newline and is immediately followed by the
marker `m`; `none` when no such split exists.  This is the backtracking
behaviour of JS `(.*)` (maximal first) with `.` not matching `\n`. -/
def greedyGroup (m : List Char) : List Char → Option (List Char)
  | [] => if hasPre m [] then some [] else none
  | c :: rest =>
    if c = '\n' then
      if hasPre m (c :: rest) then some [] else none
    else
      match greedyGroup m rest with
      | some g => some (c :: g)
      | none => if hasPre m (c :: rest) then some [] else none

/-- JS `s.match(/m(.*)m/)` group 1: scan for the leftmost start position where
the opening marker matches and a greedy group with closing marker follows. -/
def findSentinel (m : List Char) : List Char → Option (List Char)
  | [] => none
  | c :: rest =>
    if hasPre m (c :: rest) then
      match greedyGroup m ((c :: rest).drop m.length) with
      | some g => some g
      | none => findSentinel m rest
    else
      findSentinel m rest

/-- The result sentinel `__FLARE_RESULT__`. -/
def markerR : List Char :=
  ['_', '_', 'F', 'L', 'A', 'R', 'E', '_', 'R', 'E', 'S', 'U', 'L', 'T', '_', '_']

/-- The error sentinel `__FLARE_ERROR__`. -/
def markerE : List Char :=
  ['_', '_', 'F', 'L', 'A', 'R', 'E', '_', 'E', 'R', 'R', 'O', 'R', '_', '_']

theorem markerR_spelling : String.mk markerR = "__FLARE_RESULT__" := rfl

theorem markerE_spelling : String.mk markerE = "__FLARE_ERROR__" := rfl

/-- JS `lines.join("\n")`. -/
def joinLines : List String → String
  | [] => ""
  | [s] => s
  | s :: rest => s ++ "\n" ++ joinLines rest

/-! ## Data model -/

/-- The shape returned by `sandbox.runCode` (interface `SandboxResult`):
captured stdout/stderr line arrays and an optional runtime-level error.
A missing `logs`/`stdout`/`stderr` field (`logs?.stdout?` is undefined)
behaves exactly like the empty line list, since `undefined?.join("\n") || ""`
and `[].join("\n") || ""` are both `""`; it is modelled as `[]`.
The `results` field of the interface is never read by the code and is
omitted. -/
structure SandboxResult where
  stdoutLines : List String
  stderrLines : List String
  error : Option String
deriving DecidableEq

/-- The per-item response record (`ExecuteResponse`). -/
structure ExecResponse where
  success : Bool
  result : Option String := none
  error : Option String := none
  stdout : Option String := none
  stderr : Option String := none
  execution_time_ms : Nat
  sandbox_id : String
  started_at : String
  completed_at : String
deriving DecidableEq

/-- Decoding of a `SandboxResult` into an `ExecResponse`
(`executeItem` lines 86-149; `handleExecute` in `routes/execute.ts` decodes
identically):
1. a runtime-reported `error` wins outright (stderr attached, stdout not);
2. else if the joined stderr `includes` the error sentinel token, fail with
   the matched message, or `"Unknown error"` when the greedy regex finds no
   single-line pair;
3. else if the joined stdout has no result-sentinel match, fail with the
   protocol-extraction error, raw stdout and stderr attached;
4. else succeed with the matched hex string as `result`. -/
def decodeSandboxResult (sandboxId startedAt completedAt : String) (execMs : Nat)
    (r : SandboxResult) : ExecResponse :=
  match r.error with
  | some e =>
    { success := false
      error := some e
      stderr := some (joinLines r.stderrLines)
      execution_time_ms := execMs
      sandbox_id := sandboxId
      started_at := startedAt
      completed_at := completedAt }
  | none =>
    let stdout := joinLines r.stdoutLines
    let stderr := joinLines r.stderrLines
    if containsTok markerE stderr.data then
      let errorMsg :=
        match findSentinel markerE stderr.data with
        | some g => String.mk g
        | none => "Unknown error"
      { success := false
        error := some errorMsg
        stderr := some stderr
        execution_time_ms := execMs
        sandbox_id := sandboxId
        started_at := startedAt
        completed_at := completedAt }
    else
      match findSentinel markerR stdout.data with
      | none =>
        { success := false
          error := some "Failed to extract result from output"
          stdout := some stdout
          stderr := some stderr
          execution_time_ms := execMs
          sandbox_id := sandboxId
          started_at := startedAt
          completed_at := completedAt }
      | some g =>
        { success := true
          result := some (String.mk g)
          stdout := some stdout
          stderr := some stderr
          execution_time_ms := execMs
          sandbox_id := sandboxId
          started_at := startedAt
          completed_at := completedAt }

/-! ## Single-item execution (`executeItem`, lines 33-171) -/

/-- The behaviour of the sandbox runtime for one `executeItem` call:
`ctxThrow` — the awaited `createCodeContext` call (line 50, outside the
`try` block) rejects with the given message; `runThrow` — `runCode`
(line 80, inside the `try`) rejects; `runOk` — `runCode` resolves with the
given `SandboxResult`. -/
inductive RunBehavior where
  | ctxThrow (msg : String)
  | runThrow (msg : String)
  | runOk (res : SandboxResult)
deriving DecidableEq

/-- Whether the behaviour rejects already at `createCodeContext`. -/
def RunBehavior.isCtx : RunBehavior → Bool
  | .ctxThrow _ => true
  | _ => false

/-- Environment of one `executeItem` call: the `crypto.randomUUID()` draw
used for the session id, the runtime behaviour, whether `sandbox.destroy()`
rejects, and the opaque wall-clock readings used for the timing fields. -/
structure ItemEnv where
  uuid : String
  behavior : RunBehavior
  destroyFails : Bool
  startedAt : String
  completedAt : String
  execMs : Nat
deriving DecidableEq

/-- The batch path's session-naming policy (line 46):
`` `${functionId}-${crypto.randomUUID().slice(0, 8)}` ``. -/
def mkSandboxId (functionId uuid : String) : String :=
  functionId ++ "-" ++ uuid.take 8

/-- Session id of the k-th `executeItem` call of a batch, for a given
sequence of `crypto.randomUUID()` draws. -/
def sessionIdAt (functionId : String) (draws : Nat → String) (k : Nat) : String :=
  mkSandboxId functionId (draws k)

instance instDecEqExcept {ε : Type u} {α : Type v} [DecidableEq ε] [DecidableEq α] :
    DecidableEq (Except ε α)
  | Except.error a, Except.error b =>
    if h : a = b then isTrue (by rw [h])
    else isFalse (fun hh => h (Except.error.inj hh))
  | Except.error _, Except.ok _ => isFalse (fun hh => Except.noConfusion hh)
  | Except.ok _, Except.error _ => isFalse (fun hh => Except.noConfusion hh)
  | Except.ok a, Except.ok b =>
    if h : a = b then isTrue (by rw [h])
    else isFalse (fun hh => h (Except.ok.inj hh))

/-- Result of one `executeItem` call: `outcome` is `Except.ok` the returned
`ExecResponse`, or `Except.error` the message of an exception that escapes
the function; `destroyCalls` counts `sandbox.destroy()` invocations. -/
structure ItemResult where
  outcome : Except String ExecResponse
  destroyCalls : Nat
deriving DecidableEq

/-- `executeItem` (lines 33-171).  `createCodeContext` is awaited before the
`try` block, so its rejection escapes the function and reaches no teardown;
a `runCode` rejection is converted by the `catch` into a failure response;
otherwise the `SandboxResult` is decoded.  On both latter paths the
`finally` block calls `destroy` exactly once; its own rejection is caught
and only logged (`console.error`), so `destroyFails` influences nothing. -/
def executeItem (functionId itemHex : String) (env : ItemEnv) : ItemResult :=
  let sandboxId := mkSandboxId functionId env.uuid
  match env.behavior with
  | .ctxThrow msg => { outcome := Except.error msg, destroyCalls := 0 }
  | .runThrow msg =>
    { outcome := Except.ok
        { success := false
          error := some msg
          execution_time_ms := env.execMs
          sandbox_id := sandboxId
          started_at := env.startedAt
          completed_at := env.completedAt }
      destroyCalls := 1 }
  | .runOk res =>
    { outcome := Except.ok
        (decodeSandboxResult sandboxId env.startedAt env.completedAt env.execMs res)
      destroyCalls := 1 }

/-! ## Batch dispatcher (`chunk`, `handleExecuteBatch`, lines 22-254) -/

/-- Structural worker for `chunk`: the fuel bounds the number of remaining
elements, so the definition is primitive recursive (and hence reduces in
the kernel); `chunkGo_fuel` shows the fuel is irrelevant once it covers the
list length. -/
def chunkGo {α : Type u} (size : Nat) : Nat → List α → List (List α)
  | _, [] => []
  | 0, _ :: _ => []
  | fuel + 1, a :: as =>
    (a :: as).take size :: chunkGo size fuel ((a :: as).drop size)

/-- `chunk` (lines 22-28) for a positive size: consecutive slices of `size`
elements.  (The JS loop with `size = 0` never advances; that case is
handled by `chunkJS` below and this equation's `[]` value is never used
as code semantics.) -/
def chunk {α : Type u} (l : List α) (size : Nat) : List (List α) :=
  if size = 0 then [] else chunkGo size l.length l

/-- `chunk` with JS loop semantics for every integer size: for `size <= 0`
the loop `for (i = 0; i < array.length; i += size)` exits immediately on an
empty array and never terminates otherwise (`i` never increases), modelled
as `none`. -/
def chunkJS {α : Type u} (l : List α) (size : Int) : Option (List (List α)) :=
  if size ≤ 0 then (if l.isEmpty then some [] else none)
  else some (chunk l size.toNat)

/-- The request body of `/execute-batch` (interface `ExecuteBatchRequest`).
A JSON field that is absent is `none`; a required string field models its
JS falsiness by the empty string.  `timeout` only parametrises the runtime
call and is absorbed into `ItemEnv`. -/
structure ExecuteBatchRequest where
  function_id : String
  code : String
  function_name : String
  items : Option (List String)
  max_containers : Option Int
  timeout : Option Int
deriving DecidableEq

/-- The 200-response body (`ExecuteBatchResponse`); wall-clock
`total_execution_time_ms` is not modelled. -/
structure BatchResponse where
  results : List ExecResponse
  batch_count : Nat
  max_containers : Int
deriving DecidableEq

/-- The three HTTP responses `handleExecuteBatch` can produce. -/
inductive BatchHttp where
  | badRequest (error : String)
  | ok (resp : BatchResponse)
  | serverError (error : String)
deriving DecidableEq

/-- HTTP status of each response shape (400 / 200 / 500). -/
def statusOf : BatchHttp → Nat
  | .badRequest _ => 400
  | .ok _ => 200
  | .serverError _ => 500

/-- `body.max_containers || 10` (line 213): an absent value and the falsy
`0` both fall back to the default 10; every other value, negative ones
included, is used as-is. -/
def effectiveCap (mc : Option Int) : Int :=
  match mc with
  | none => 10
  | some m => if m = 0 then 10 else m

/-- `Promise.all` over the already-determined item promises: the list of
values when all resolve, otherwise a rejection carrying (as a
determinisation) the first rejection message in item order. -/
def promiseAll {ε : Type u} {α : Type v} : List (Except ε α) → Except ε (List α)
  | [] => Except.ok []
  | x :: xs =>
    match x with
    | Except.error e => Except.error e
    | Except.ok a =>
      match promiseAll xs with
      | Except.error e => Except.error e
      | Except.ok as => Except.ok (a :: as)

/-- Map a function that also receives the global call index, starting at
`off`: item `off + j` of the batch run is the j-th element of the current
round. -/
def mapIdxFrom {α : Type u} {β : Type v} (f : Nat → α → β) : Nat → List α → List β
  | _, [] => []
  | k, a :: as => f k a :: mapIdxFrom f (k + 1) as

/-- The round loop (lines 221-228): rounds run in order; each round maps
`executeItem` over its items (abstracted as `F`, receiving the global item
index) and joins them with `Promise.all`; a rejected round rejects the
whole loop. -/
def runRounds {β : Type u} (F : Nat → String → Except String β) :
    Nat → List (List String) → Except String (List β)
  | _, [] => Except.ok []
  | off, b :: bs =>
    match promiseAll (mapIdxFrom F off b) with
    | Except.error e => Except.error e
    | Except.ok rs =>
      match runRounds F (off + b.length) bs with
      | Except.error e => Except.error e
      | Except.ok rest => Except.ok (rs ++ rest)

/-- `handleExecuteBatch` (lines 176-254), after JSON parsing: field
validation (JS falsiness, missing `items`), defaulting of the cap,
chunking, the sequential round loop, and the three response shapes.
`none` models the divergence of `chunk` on a negative cap. -/
def handleExecuteBatch (body : ExecuteBatchRequest) (envs : Nat → ItemEnv) :
    Option BatchHttp :=
  if body.function_id = "" ∨ body.code = "" ∨ body.function_name = "" ∨ body.items = none
  then some (BatchHttp.badRequest
    "Missing required fields: function_id, code, function_name, items")
  else
    let items := body.items.getD []
    let cap : Int := effectiveCap body.max_containers
    match chunkJS items cap with
    | none => none
    | some batches =>
      match runRounds (fun k it => (executeItem body.function_id it (envs k)).outcome)
          0 batches with
      | Except.error e => some (BatchHttp.serverError e)
      | Except.ok rs =>
        some (BatchHttp.ok
          { results := rs, batch_count := batches.length, max_containers := cap })

/-! ## Lemmas about the sentinel matcher -/

theorem hasPre_append (p t : List Char) : hasPre p (p ++ t) = true := by
  induction p with
  | nil => rfl
  | cons c cs ih => simp [hasPre, ih]

theorem hasPre_refl (p : List Char) : hasPre p p = true := by
  have := hasPre_append p []
  simpa using this

theorem hasPre_length {p s : List Char} (h : hasPre p s = true) : p.length ≤ s.length := by
  induction p generalizing s with
  | nil => simp
  | cons c cs ih =>
    cases s with
    | nil => simp [hasPre] at h
    | cons d ds =>
      simp only [hasPre, Bool.and_eq_true] at h
      simpa using ih h.2

theorem greedyGroup_short {m s : List Char} (h : s.length < m.length) :
    greedyGroup m s = none := by
  induction s with
  | nil =>
    have hm : hasPre m [] = false := by
      cases m with
      | nil => simp at h
      | cons c cs => rfl
    simp [greedyGroup, hm]
  | cons c cs ih =>
    have hm : hasPre m (c :: cs) = false := by
      cases hp : hasPre m (c :: cs) with
      | false => rfl
      | true => exact absurd (hasPre_length hp) (by omega)
    have ihr : greedyGroup m cs = none := ih (by simp at h ⊢; omega)
    simp [greedyGroup, hm, ihr]

theorem greedyGroup_append {m : List Char} (g : List Char) (hm : m ≠ [])
    (hnl : '\n' ∉ g) : greedyGroup m (g ++ m) = some g := by
  induction g with
  | nil =>
    cases m with
    | nil => exact absurd rfl hm
    | cons c cs =>
      have hshort : greedyGroup (c :: cs) cs = none :=
        greedyGroup_short (by simp)
      by_cases hc : c = '\n'
      · subst hc
        simp [greedyGroup, hshort, hasPre_refl]
      · simp [greedyGroup, hc, hshort, hasPre_refl]
  | cons c g' ih =>
    have hc : c ≠ '\n' := fun hh => hnl (hh ▸ List.mem_cons_self c g')
    have ihr : greedyGroup m (g' ++ m) = some g' :=
      ih (fun hmem => hnl (List.mem_cons_of_mem c hmem))
    simp [greedyGroup, hc, ihr]

theorem findSentinel_append {m : List Char} (g : List Char) (hm : m ≠ [])
    (hnl : '\n' ∉ g) : findSentinel m (m ++ g ++ m) = some g := by
  cases m with
  | nil => exact absurd rfl hm
  | cons c cs =>
    have hpre : hasPre (c :: cs) (c :: (cs ++ (g ++ (c :: cs)))) = true := by
      have := hasPre_append (c :: cs) (g ++ (c :: cs))
      simpa using this
    have hdrop : (c :: (cs ++ (g ++ (c :: cs)))).drop (c :: cs).length
        = g ++ (c :: cs) := by
      have := List.drop_left (c :: cs) (g ++ (c :: cs))
      simpa using this
    have hgreedy : greedyGroup (c :: cs) (g ++ (c :: cs)) = some g :=
      greedyGroup_append g hm hnl
    rw [List.append_assoc]
    show findSentinel (c :: cs) (c :: (cs ++ (g ++ (c :: cs)))) = some g
    rw [findSentinel, if_pos hpre, hdrop, hgreedy]

theorem containsTok_of_findSentinel {m s g : List Char}
    (h : findSentinel m s = some g) : containsTok m s = true := by
  induction s with
  | nil => simp [findSentinel] at h
  | cons c cs ih =>
    by_cases hp : hasPre m (c :: cs) = true
    · simp [containsTok, hp]
    · have hp' : hasPre m (c :: cs) = false := by
        cases hh : hasPre m (c :: cs) with
        | false => rfl
        | true => exact absurd hh hp
      rw [findSentinel, if_neg (by simp [hp'])] at h
      simp [containsTok, ih h]

/-! ## Lemmas about `chunk` -/

theorem chunkGo_fuel {α : Type u} (size : Nat) (hsz : size ≠ 0) :
    ∀ (fuel : Nat) (l : List α), l.length ≤ fuel →
      chunkGo size fuel l = chunkGo size l.length l := by
  intro fuel
  induction fuel using Nat.strong_induction_on with
  | _ fuel ih =>
    intro l hl
    cases fuel with
    | zero =>
      cases l with
      | nil => rfl
      | cons a as => simp at hl
    | succ fuel =>
      cases l with
      | nil => rfl
      | cons a as =>
        show (a :: as).take size :: chunkGo size fuel ((a :: as).drop size)
          = (a :: as).take size :: chunkGo size as.length ((a :: as).drop size)
        have hdl : ((a :: as).drop size).length ≤ as.length := by
          simp only [List.length_drop, List.length_cons]
          omega
        have hasfuel : as.length ≤ fuel := by simpa using hl
        have h1 := ih fuel (by omega) ((a :: as).drop size) (le_trans hdl hasfuel)
        have h2 := ih as.length (by omega) ((a :: as).drop size) hdl
        rw [h1, ← h2]

theorem chunk_nil {α : Type u} (size : Nat) : chunk ([] : List α) size = [] := by
  rw [chunk]
  split <;> rfl

theorem chunk_cons {α : Type u} (a : α) (as : List α) {size : Nat} (h : size ≠ 0) :
    chunk (a :: as) size = (a :: as).take size :: chunk ((a :: as).drop size) size := by
  rw [chunk, chunk, if_neg h, if_neg h]
  show (a :: as).take size :: chunkGo size as.length ((a :: as).drop size)
    = (a :: as).take size :: chunkGo size ((a :: as).drop size).length ((a :: as).drop size)
  rw [chunkGo_fuel size h as.length ((a :: as).drop size)
    (by simp only [List.length_drop, List.length_cons]; omega)]

theorem chunk_flatten {α : Type u} {C : Nat} (hC : C ≠ 0) :
    (l : List α) → (chunk l C).flatten = l
  | [] => by simp [chunk_nil]
  | a :: as => by
    rw [chunk_cons a as hC, List.flatten_cons, chunk_flatten hC ((a :: as).drop C)]
    exact List.take_append_drop C (a :: as)
termination_by l => l.length
decreasing_by
  simp only [List.length_drop, List.length_cons]
  omega

theorem chunk_length {α : Type u} {C : Nat} (hC : C ≠ 0) :
    (l : List α) → (chunk l C).length = (l.length + C - 1) / C
  | [] => by
    rw [chunk_nil]
    have : (C - 1) / C = 0 := Nat.div_eq_of_lt (by omega)
    simp [this]
  | a :: as => by
    rw [chunk_cons a as hC, List.length_cons,
      chunk_length hC ((a :: as).drop C)]
    have hd : ((a :: as).drop C).length = (a :: as).length - C := by
      simp [List.length_drop]
    rw [hd]
    set n := (a :: as).length with hn
    have hn1 : 1 ≤ n := by simp [hn]
    rcases le_or_lt n C with hle | hlt
    · have h0 : n - C = 0 := by omega
      rw [h0]
      have hl : (0 + C - 1) / C = 0 := Nat.div_eq_of_lt (by omega)
      have hr : (n + C - 1) / C = 1 := by
        apply Nat.div_eq_of_lt_le <;> omega
      omega
    · have h1 : n - C + C - 1 = (n - 1 - C) + C := by omega
      have h2 : n + C - 1 = (n - 1) + C := by omega
      rw [h1, h2, Nat.add_div_right _ (Nat.pos_of_ne_zero hC),
        Nat.add_div_right _ (Nat.pos_of_ne_zero hC)]
      have h4 : (n - 1) / C = (n - 1 - C) / C + 1 := by
        conv_lhs => rw [← Nat.sub_add_cancel (show C ≤ n - 1 by omega)]
        rw [Nat.add_div_right _ (Nat.pos_of_ne_zero hC)]
      omega
termination_by l => l.length
decreasing_by
  simp only [List.length_drop, List.length_cons]
  omega

theorem chunk_dropLast {α : Type u} {C : Nat} (hC : C ≠ 0) :
    (l : List α) → ∀ b ∈ (chunk l C).dropLast, b.length = C
  | [] => by simp [chunk_nil]
  | a :: as => by
    intro b hb
    rw [chunk_cons a as hC] at hb
    rcases hd : (a :: as).drop C with _ | ⟨d, ds⟩
    · rw [hd, chunk_nil] at hb
      simp at hb
    · have hrest : chunk ((a :: as).drop C) C ≠ [] := by
        rw [hd, chunk_cons d ds hC]
        simp
      rcases hr : chunk ((a :: as).drop C) C with _ | ⟨r, rs⟩
      · exact absurd hr hrest
      · rw [hr, List.dropLast_cons₂] at hb
        rcases List.mem_cons.mp hb with hbt | hbm
        · subst hbt
          have hCn : C ≤ as.length + 1 := by
            by_contra hcon
            have hnil : (a :: as).drop C = [] :=
              List.drop_eq_nil_iff.mpr (by simp; omega)
            rw [hnil] at hd
            exact List.noConfusion hd
          simp only [List.length_take, List.length_cons]
          omega
        · exact chunk_dropLast hC ((a :: as).drop C) b (by rw [hr]; exact hbm)
termination_by l => l.length
decreasing_by
  simp only [List.length_drop, List.length_cons]
  omega

theorem chunk_getLast {α : Type u} {C : Nat} (hC : C ≠ 0) :
    (l : List α) → ∀ b, (chunk l C).getLast? = some b →
      b.length = (if l.length % C = 0 then C else l.length % C)
  | [] => by simp [chunk_nil]
  | a :: as => by
    intro b hb
    rw [chunk_cons a as hC] at hb
    rcases hd : (a :: as).drop C with _ | ⟨d, ds⟩
    · -- the whole list fits in a single round
      rw [hd, chunk_nil] at hb
      simp only [List.getLast?_singleton, Option.some.injEq] at hb
      subst hb
      have hle : (a :: as).length ≤ C := List.drop_eq_nil_iff.mp hd
      have h1 : 1 ≤ (a :: as).length := by simp
      rcases Nat.eq_or_lt_of_le hle with heq | hlt
      · rw [List.length_take, heq, Nat.min_self, Nat.mod_self, if_pos rfl]
      · rw [List.length_take, Nat.min_eq_right (by omega),
          Nat.mod_eq_of_lt hlt, if_neg (by omega)]
    · have hrest : chunk ((a :: as).drop C) C ≠ [] := by
        rw [hd, chunk_cons d ds hC]
        simp
      rcases hr : chunk ((a :: as).drop C) C with _ | ⟨r, rs⟩
      · exact absurd hr hrest
      · rw [hr, List.getLast?_cons_cons] at hb
        have hCn : C ≤ (a :: as).length := by
          by_contra hcon
          have : (a :: as).drop C = [] := List.drop_eq_nil_of_le (by omega)
          rw [this] at hd
          exact List.noConfusion hd
        have ih := chunk_getLast hC ((a :: as).drop C) b (by rw [hr]; exact hb)
        have hmod : ((a :: as).drop C).length % C = (a :: as).length % C := by
          rw [List.length_drop]
          conv_rhs => rw [← Nat.sub_add_cancel hCn]
          rw [Nat.add_mod_right]
        rw [hmod] at ih
        exact ih
termination_by l => l.length
decreasing_by
  simp only [List.length_drop, List.length_cons]
  omega

/-! ## Lemmas about the round loop -/

theorem mapIdxFrom_append {α : Type u} {β : Type v} (f : Nat → α → β)
    (xs ys : List α) : ∀ off, mapIdxFrom f off (xs ++ ys)
      = mapIdxFrom f off xs ++ mapIdxFrom f (off + xs.length) ys := by
  induction xs with
  | nil => intro off; simp [mapIdxFrom]
  | cons x xs ih =>
    intro off
    show f off x :: mapIdxFrom f (off + 1) (xs ++ ys)
      = f off x :: (mapIdxFrom f (off + 1) xs ++ mapIdxFrom f (off + (x :: xs).length) ys)
    have harith : off + 1 + xs.length = off + (x :: xs).length := by
      simp only [List.length_cons]
      omega
    rw [ih (off + 1), harith]

theorem mapIdxFrom_length {α : Type u} {β : Type v} (f : Nat → α → β) :
    ∀ (off : Nat) (l : List α), (mapIdxFrom f off l).length = l.length := by
  intro off l
  induction l generalizing off with
  | nil => rfl
  | cons x xs ih => simp [mapIdxFrom, ih]

theorem mapIdxFrom_getElem? {α : Type u} {β : Type v} (f : Nat → α → β) :
    ∀ (off i : Nat) (l : List α),
      (mapIdxFrom f off l)[i]? = (l[i]?).map (f (off + i)) := by
  intro off i l
  induction l generalizing off i with
  | nil => simp [mapIdxFrom]
  | cons x xs ih =>
    cases i with
    | zero => simp [mapIdxFrom]
    | succ j =>
      have harith : off + 1 + j = off + (j + 1) := by omega
      simp only [mapIdxFrom, List.getElem?_cons_succ, ih (off + 1) j, harith]

theorem promiseAll_append {ε : Type u} {α : Type v} (xs ys : List (Except ε α)) :
    promiseAll (xs ++ ys) =
      match promiseAll xs with
      | Except.error e => Except.error e
      | Except.ok as =>
        match promiseAll ys with
        | Except.error e => Except.error e
        | Except.ok bs => Except.ok (as ++ bs) := by
  induction xs with
  | nil =>
    show promiseAll ys = _
    cases promiseAll ys <;> rfl
  | cons x xs ih =>
    cases x with
    | error e => rfl
    | ok a =>
      show (match promiseAll (xs ++ ys) with
          | Except.error e => Except.error e
          | Except.ok as => Except.ok (a :: as))
        = (match (match promiseAll xs with
              | Except.error e => Except.error e
              | Except.ok as => Except.ok (a :: as)) with
            | Except.error e => Except.error e
            | Except.ok as =>
              match promiseAll ys with
              | Except.error e => Except.error e
              | Except.ok bs => Except.ok (as ++ bs))
      rw [ih]
      cases promiseAll xs with
      | error e => rfl
      | ok as => cases promiseAll ys <;> rfl

theorem promiseAll_ok {ε : Type u} {α : Type v} :
    ∀ (xs : List (Except ε α)),
      (∀ (i : Nat) (x : Except ε α), xs[i]? = some x → ∃ r, x = Except.ok r) →
      ∃ rs, promiseAll xs = Except.ok rs ∧ rs.length = xs.length ∧
        ∀ (i : Nat), xs[i]? = (rs[i]?).map Except.ok
  | [], _ => by
    refine ⟨[], rfl, rfl, ?_⟩
    intro i
    simp
  | x :: xs, h => by
    obtain ⟨r, hr⟩ := h 0 x (by simp)
    obtain ⟨rs, hall, hlen, hidx⟩ :=
      promiseAll_ok xs (fun i y hy => h (i + 1) y (by simpa using hy))
    subst hr
    refine ⟨r :: rs, ?_, ?_, ?_⟩
    · show (match promiseAll xs with
        | Except.error e => Except.error e
        | Except.ok as => Except.ok (r :: as)) = Except.ok (r :: rs)
      rw [hall]
    · simp [hlen]
    · intro i
      cases i with
      | zero => simp
      | succ j => simpa using hidx j

theorem runRounds_flatten {β : Type u} (F : Nat → String → Except String β) :
    ∀ (bs : List (List String)) (off : Nat),
      runRounds F off bs = promiseAll (mapIdxFrom F off bs.flatten)
  | [], _ => rfl
  | b :: bs, off => by
    show (match promiseAll (mapIdxFrom F off b) with
      | Except.error e => Except.error e
      | Except.ok rs =>
        match runRounds F (off + b.length) bs with
        | Except.error e => Except.error e
        | Except.ok rest => Except.ok (rs ++ rest)) = _
    rw [runRounds_flatten F bs (off + b.length)]
    have hm : mapIdxFrom F off (b :: bs).flatten
        = mapIdxFrom F off b ++ mapIdxFrom F (off + b.length) bs.flatten := by
      rw [List.flatten_cons, mapIdxFrom_append]
    rw [hm, promiseAll_append]
    cases promiseAll (mapIdxFrom F off b) with
    | error e => rfl
    | ok rs =>
      cases promiseAll (mapIdxFrom F (off + b.length) bs.flatten) <;> rfl

/-! ## The normal (no dispatcher-level rejection) batch path -/

theorem executeItem_outcome_ok (fid it : String) (env : ItemEnv)
    (h : env.behavior.isCtx = false) :
    ∃ r, (executeItem fid it env).outcome = Except.ok r := by
  cases hb : env.behavior with
  | ctxThrow msg =>
    rw [hb] at h
    simp [RunBehavior.isCtx] at h
  | runThrow msg =>
    exact ⟨⟨false, none, some msg, none, none, env.execMs,
      mkSandboxId fid env.uuid, env.startedAt, env.completedAt⟩,
      by simp [executeItem, hb]⟩
  | runOk res =>
    exact ⟨decodeSandboxResult (mkSandboxId fid env.uuid) env.startedAt
        env.completedAt env.execMs res, by simp [executeItem, hb]⟩

theorem handleExecuteBatch_ok (body : ExecuteBatchRequest) (envs : Nat → ItemEnv)
    (l : List String)
    (hid : body.function_id ≠ "") (hcode : body.code ≠ "")
    (hfn : body.function_name ≠ "") (hitems : body.items = some l)
    (hcap : 1 ≤ effectiveCap body.max_containers)
    (hctx : ∀ k, k < l.length → (envs k).behavior.isCtx = false) :
    ∃ resp, handleExecuteBatch body envs = some (BatchHttp.ok resp) ∧
      resp.batch_count
        = (chunk l (effectiveCap body.max_containers).toNat).length ∧
      resp.max_containers = effectiveCap body.max_containers ∧
      resp.results.length = l.length ∧
      ∀ (i : Nat) (a : String), l[i]? = some a →
        ∃ r, resp.results[i]? = some r ∧
          (executeItem body.function_id a (envs i)).outcome = Except.ok r := by
  have hcap0 : ¬ effectiveCap body.max_containers ≤ 0 := by omega
  have hcapN : (effectiveCap body.max_containers).toNat ≠ 0 := by omega
  have hFok : ∀ (i : Nat) (x : Except String ExecResponse),
      (mapIdxFrom (fun k it => (executeItem body.function_id it (envs k)).outcome)
        0 l)[i]? = some x → ∃ r, x = Except.ok r := by
    intro i x hx
    rw [mapIdxFrom_getElem?] at hx
    rcases ha : l[i]? with _ | a
    · rw [ha] at hx
      simp at hx
    · rw [ha] at hx
      simp only [Option.map_some', Option.some.injEq, Nat.zero_add] at hx
      have hi : i < l.length := by
        rcases List.getElem?_eq_some.mp ha with ⟨hlt, _⟩
        exact hlt
      obtain ⟨r, hr⟩ :=
        executeItem_outcome_ok body.function_id a (envs i) (hctx i hi)
      exact ⟨r, by rw [← hx, hr]⟩
  obtain ⟨rs, hall, hlen, hidx⟩ := promiseAll_ok
    (mapIdxFrom (fun k it => (executeItem body.function_id it (envs k)).outcome) 0 l)
    hFok
  have hrun : runRounds
      (fun k it => (executeItem body.function_id it (envs k)).outcome) 0
      (chunk l (effectiveCap body.max_containers).toNat) = Except.ok rs := by
    rw [runRounds_flatten, chunk_flatten hcapN]
    exact hall
  refine ⟨⟨rs, (chunk l (effectiveCap body.max_containers).toNat).length,
      effectiveCap body.max_containers⟩, ?_, rfl, rfl, ?_, ?_⟩
  · simp only [handleExecuteBatch, hitems, Option.getD_some, chunkJS,
      if_neg hcap0, hrun]
    rw [if_neg (by simp [hid, hcode, hfn, hitems])]
  · rw [hlen, mapIdxFrom_length]
  · intro i a ha
    have h1 := hidx i
    rw [mapIdxFrom_getElem?, ha] at h1
    simp only [Option.map_some', Nat.zero_add] at h1
    rcases Option.map_eq_some'.mp h1.symm with ⟨r, hrs, hok⟩
    exact ⟨r, hrs, hok.symm⟩

/-! ## Concrete data for witnesses -/

/-- A concrete batch request: three items, `max_containers = 2`. -/
def wBody : ExecuteBatchRequest :=
  ⟨"fn", "def g(x): return x", "g", some ["aa", "bb", "cc"], some 2, none⟩

/-- A concrete runtime behaviour: the run succeeds and stdout carries a
well-formed result sentinel. -/
def wEnvOk : ItemEnv :=
  ⟨"0123456789abcdef",
    RunBehavior.runOk ⟨["__FLARE_RESULT__cafe__FLARE_RESULT__"], [], none⟩,
    false, "t0", "t1", 5⟩

/-- A concrete runtime behaviour: the run finishes but user code raised, so
stderr carries an error sentinel (a failing item). -/
def wEnvFail : ItemEnv :=
  ⟨"fedcba9876543210",
    RunBehavior.runOk ⟨[], ["__FLARE_ERROR__bad__FLARE_ERROR__"], none⟩,
    false, "t0", "t1", 5⟩

/-! ## Claim theorems -/

/-- C1: for every batch request with a non-empty items sequence and every
effective concurrency cap ≥ 1 (with a runtime that does not reject context
creation — such a rejection aborts the dispatch, see C3/C4), the returned
results sequence has one entry per item and its i-th entry is exactly the
outcome `executeItem` produces for the i-th item: chunking into consecutive
rounds, running rounds in order and concatenating round outcomes
reconstructs the original input order. -/
theorem batch_order_preservation (body : ExecuteBatchRequest)
    (envs : Nat → ItemEnv) (l : List String)
    (hid : body.function_id ≠ "") (hcode : body.code ≠ "")
    (hfn : body.function_name ≠ "") (hitems : body.items = some l)
    (hne : l ≠ [])
    (hcap : 1 ≤ effectiveCap body.max_containers)
    (hctx : ∀ k, k < l.length → (envs k).behavior.isCtx = false) :
    ∃ resp, handleExecuteBatch body envs = some (BatchHttp.ok resp) ∧
      resp.results.length = l.length ∧
      ∀ (i : Nat) (a : String), l[i]? = some a →
        ∃ r, resp.results[i]? = some r ∧
          (executeItem body.function_id a (envs i)).outcome = Except.ok r := by
  obtain ⟨resp, h1, _, _, h4, h5⟩ :=
    handleExecuteBatch_ok body envs l hid hcode hfn hitems hcap hctx
  exact ⟨resp, h1, h4, h5⟩

theorem batch_order_preservation_witness :
    ∃ resp, handleExecuteBatch wBody (fun _ => wEnvOk) = some (BatchHttp.ok resp) ∧
      resp.results.length = (["aa", "bb", "cc"] : List String).length ∧
      ∀ (i : Nat) (a : String), (["aa", "bb", "cc"] : List String)[i]? = some a →
        ∃ r, resp.results[i]? = some r ∧
          (executeItem wBody.function_id a ((fun _ => wEnvOk) i)).outcome
            = Except.ok r :=
  batch_order_preservation wBody (fun _ => wEnvOk) ["aa", "bb", "cc"]
    (by decide) (by decide) (by decide) rfl (by decide) (by decide)
    (fun _ _ => rfl)

/-- C2: for N items and effective cap C ≥ 1 the reported `batch_count` is
`⌈N / C⌉` (written `(N + C - 1) / C` in natural division), every round
except possibly the last has exactly C items, and when `N % C ≠ 0` the last
round has `N % C` items. -/
theorem batch_round_bounding (body : ExecuteBatchRequest)
    (envs : Nat → ItemEnv) (l : List String)
    (hid : body.function_id ≠ "") (hcode : body.code ≠ "")
    (hfn : body.function_name ≠ "") (hitems : body.items = some l)
    (hcap : 1 ≤ effectiveCap body.max_containers)
    (hctx : ∀ k, k < l.length → (envs k).behavior.isCtx = false) :
    ∃ resp, handleExecuteBatch body envs = some (BatchHttp.ok resp) ∧
      resp.batch_count
        = (l.length + (effectiveCap body.max_containers).toNat - 1)
          / (effectiveCap body.max_containers).toNat ∧
      (∀ b ∈ (chunk l (effectiveCap body.max_containers).toNat).dropLast,
        b.length = (effectiveCap body.max_containers).toNat) ∧
      (l.length % (effectiveCap body.max_containers).toNat ≠ 0 →
        ∀ b, (chunk l (effectiveCap body.max_containers).toNat).getLast?
            = some b →
          b.length = l.length % (effectiveCap body.max_containers).toNat) := by
  have hcapN : (effectiveCap body.max_containers).toNat ≠ 0 := by omega
  obtain ⟨resp, h1, h2, _, _, _⟩ :=
    handleExecuteBatch_ok body envs l hid hcode hfn hitems hcap hctx
  refine ⟨resp, h1, ?_, chunk_dropLast hcapN l, ?_⟩
  · rw [h2, chunk_length hcapN]
  · intro hmod b hb
    have hlast := chunk_getLast hcapN l b hb
    rw [if_neg hmod] at hlast
    exact hlast

theorem batch_round_bounding_witness :
    ∃ resp, handleExecuteBatch wBody (fun _ => wEnvOk) = some (BatchHttp.ok resp) ∧
      resp.batch_count
        = ((["aa", "bb", "cc"] : List String).length
            + (effectiveCap wBody.max_containers).toNat - 1)
          / (effectiveCap wBody.max_containers).toNat ∧
      (∀ b ∈ (chunk (["aa", "bb", "cc"] : List String)
          (effectiveCap wBody.max_containers).toNat).dropLast,
        b.length = (effectiveCap wBody.max_containers).toNat) ∧
      ((["aa", "bb", "cc"] : List String).length
          % (effectiveCap wBody.max_containers).toNat ≠ 0 →
        ∀ b, (chunk (["aa", "bb", "cc"] : List String)
            (effectiveCap wBody.max_containers).toNat).getLast? = some b →
          b.length = (["aa", "bb", "cc"] : List String).length
            % (effectiveCap wBody.max_containers).toNat) :=
  batch_round_bounding wBody (fun _ => wEnvOk) ["aa", "bb", "cc"]
    (by decide) (by decide) (by decide) rfl (by decide) (fun _ _ => rfl)

/-- C3: when one item of the batch fails at the run or decode level
(user-code exception surfaced via the error sentinel, runtime-reported
error, rejected run, or missing result sentinel — all of which yield a
`success := false` outcome rather than an exception), every other item in
its round and in all later rounds still produces its own outcome, and the
response is the 200 `ok` shape regardless of how many items failed. -/
theorem batch_failure_isolation (body : ExecuteBatchRequest)
    (envs : Nat → ItemEnv) (l : List String) (j : Nat)
    (hid : body.function_id ≠ "") (hcode : body.code ≠ "")
    (hfn : body.function_name ≠ "") (hitems : body.items = some l)
    (hcap : 1 ≤ effectiveCap body.max_containers)
    (hctx : ∀ k, k < l.length → (envs k).behavior.isCtx = false)
    (hj : j < l.length)
    (hfail : ∃ r, (executeItem body.function_id (l.get ⟨j, hj⟩) (envs j)).outcome
        = Except.ok r ∧ r.success = false) :
    ∃ resp, handleExecuteBatch body envs = some (BatchHttp.ok resp) ∧
      statusOf (BatchHttp.ok resp) = 200 ∧
      resp.results.length = l.length ∧
      ∀ (i : Nat) (a : String), l[i]? = some a →
        ∃ r, resp.results[i]? = some r ∧
          (executeItem body.function_id a (envs i)).outcome = Except.ok r := by
  obtain ⟨resp, h1, _, _, h4, h5⟩ :=
    handleExecuteBatch_ok body envs l hid hcode hfn hitems hcap hctx
  exact ⟨resp, h1, rfl, h4, h5⟩

theorem batch_failure_isolation_witness :
    ∃ resp, handleExecuteBatch wBody (fun k => if k = 0 then wEnvFail else wEnvOk)
        = some (BatchHttp.ok resp) ∧
      statusOf (BatchHttp.ok resp) = 200 ∧
      resp.results.length = (["aa", "bb", "cc"] : List String).length ∧
      ∀ (i : Nat) (a : String), (["aa", "bb", "cc"] : List String)[i]? = some a →
        ∃ r, resp.results[i]? = some r ∧
          (executeItem wBody.function_id a
            ((fun k => if k = 0 then wEnvFail else wEnvOk) i)).outcome
            = Except.ok r :=
  batch_failure_isolation wBody (fun k => if k = 0 then wEnvFail else wEnvOk)
    ["aa", "bb", "cc"] 0
    (by decide) (by decide) (by decide) rfl (by decide)
    (by
      intro k hk
      by_cases h0 : k = 0 <;> simp [h0, wEnvFail, wEnvOk, RunBehavior.isCtx])
    (by decide)
    ⟨_, rfl, rfl⟩

/-- All four decode branches populate the timing fields from the handler's
clock readings. -/
theorem decode_timing (sid sa ca : String) (ms : Nat) (r : SandboxResult) :
    (decodeSandboxResult sid sa ca ms r).started_at = sa ∧
      (decodeSandboxResult sid sa ca ms r).completed_at = ca ∧
      (decodeSandboxResult sid sa ca ms r).execution_time_ms = ms := by
  obtain ⟨so, se, err⟩ := r
  rcases err with _ | e
  · dsimp only [decodeSandboxResult]
    split
    · exact ⟨rfl, rfl, rfl⟩
    · split
      · exact ⟨rfl, rfl, rfl⟩
      · exact ⟨rfl, rfl, rfl⟩
  · exact ⟨rfl, rfl, rfl⟩

/-- C4 counterexample: the claim quantifies over every behaviour of the
session runtime *including a failure during context creation*, but
`createCodeContext` (line 50) is awaited before the `try` block, so its
rejection escapes `executeItem` as an exception (`Except.error` in the
embedding) instead of being converted into a `success := false` outcome. -/
theorem executeItem_ctx_escape_counterexample :
    (executeItem "fn" "aa"
        ⟨"0123456789abcdef", RunBehavior.ctxThrow "context creation failed",
          false, "t0", "t1", 0⟩).outcome
      = Except.error "context creation failed" := rfl

/-- C4 (amended): `executeItem` never raises for any behaviour of the run
and decode phases: a rejected `runCode` and every decoded `SandboxResult`
yield a returned `ExecResponse` whose `started_at`, `completed_at` and
`execution_time_ms` come from the handler's clock readings, with
`success := false` carrying the error on a rejected run or a
runtime-reported error.  (A rejection of `createCodeContext`, being outside
the `try`, instead escapes the function — see the counterexample.) -/
theorem executeItem_no_raise_amended (fid it : String) (env : ItemEnv)
    (h : env.behavior.isCtx = false) :
    ∃ r, (executeItem fid it env).outcome = Except.ok r ∧
      r.started_at = env.startedAt ∧
      r.completed_at = env.completedAt ∧
      r.execution_time_ms = env.execMs ∧
      (∀ msg, env.behavior = RunBehavior.runThrow msg →
        r.success = false ∧ r.error = some msg) ∧
      (∀ res e, env.behavior = RunBehavior.runOk res → res.error = some e →
        r.success = false ∧ r.error = some e) := by
  cases hb : env.behavior with
  | ctxThrow msg =>
    rw [hb] at h
    simp [RunBehavior.isCtx] at h
  | runThrow msg =>
    refine ⟨⟨false, none, some msg, none, none, env.execMs,
      mkSandboxId fid env.uuid, env.startedAt, env.completedAt⟩,
      by simp [executeItem, hb], rfl, rfl, rfl, ?_, ?_⟩
    · intro m hm
      cases RunBehavior.runThrow.inj hm
      exact ⟨rfl, rfl⟩
    · intro res e hres _herr
      exact absurd hres (by simp)
  | runOk res =>
    obtain ⟨hsa, hca, hms⟩ := decode_timing (mkSandboxId fid env.uuid)
      env.startedAt env.completedAt env.execMs res
    refine ⟨decodeSandboxResult (mkSandboxId fid env.uuid) env.startedAt
        env.completedAt env.execMs res,
      by simp [executeItem, hb], hsa, hca, hms, ?_, ?_⟩
    · intro m hm
      exact absurd hm (by simp)
    · intro res2 e hres herr
      cases RunBehavior.runOk.inj hres
      constructor <;> simp [decodeSandboxResult, herr]

theorem executeItem_no_raise_amended_witness :
    ∃ r, (executeItem "fn" "aa"
        ⟨"0123456789abcdef", RunBehavior.runThrow "runtime down",
          false, "t0", "t1", 3⟩).outcome = Except.ok r ∧
      r.started_at = "t0" ∧
      r.completed_at = "t1" ∧
      r.execution_time_ms = 3 ∧
      (∀ msg, (⟨"0123456789abcdef", RunBehavior.runThrow "runtime down",
          false, "t0", "t1", 3⟩ : ItemEnv).behavior = RunBehavior.runThrow msg →
        r.success = false ∧ r.error = some msg) ∧
      (∀ res e, (⟨"0123456789abcdef", RunBehavior.runThrow "runtime down",
          false, "t0", "t1", 3⟩ : ItemEnv).behavior = RunBehavior.runOk res →
        res.error = some e → r.success = false ∧ r.error = some e) :=
  executeItem_no_raise_amended "fn" "aa"
    ⟨"0123456789abcdef", RunBehavior.runThrow "runtime down",
      false, "t0", "t1", 3⟩ rfl

/-- C5 counterexample: the claim asserts exactly one destroy call on
*every* path including an exception raised anywhere in the item's
processing; but when `createCodeContext` rejects, control never enters the
`try`/`finally`, so `sandbox.destroy()` is never invoked — zero calls. -/
theorem executeItem_teardown_counterexample :
    (executeItem "fn" "bb"
        ⟨"89abcdef01234567", RunBehavior.ctxThrow "boom",
          false, "t0", "t1", 0⟩).destroyCalls = 0 := rfl

/-- C5 (amended): on every path that reaches the run phase — successful
run, user-code error, runtime-reported error, missing result sentinel, and
a rejected `runCode` — the `finally` block issues exactly one destroy call,
and a failing destroy is swallowed (only logged): the entire result is
unchanged when only `destroyFails` differs.  A rejection of
`createCodeContext` instead skips teardown (see the counterexample). -/
theorem executeItem_destroy_once (fid it : String) (env : ItemEnv)
    (h : env.behavior.isCtx = false) :
    (executeItem fid it env).destroyCalls = 1 := by
  cases hb : env.behavior with
  | ctxThrow msg =>
    rw [hb] at h
    simp [RunBehavior.isCtx] at h
  | runThrow msg => simp [executeItem, hb]
  | runOk res => simp [executeItem, hb]

theorem executeItem_destroyFails_irrel (fid it : String) (env env2 : ItemEnv)
    (huuid : env2.uuid = env.uuid) (hbeh : env2.behavior = env.behavior)
    (hsa : env2.startedAt = env.startedAt)
    (hca : env2.completedAt = env.completedAt)
    (hms : env2.execMs = env.execMs) :
    executeItem fid it env2 = executeItem fid it env := by
  unfold executeItem
  rw [huuid, hbeh, hsa, hca, hms]

theorem executeItem_teardown_amended (fid it : String) (env env2 : ItemEnv)
    (h : env.behavior.isCtx = false)
    (huuid : env2.uuid = env.uuid) (hbeh : env2.behavior = env.behavior)
    (hsa : env2.startedAt = env.startedAt)
    (hca : env2.completedAt = env.completedAt)
    (hms : env2.execMs = env.execMs) :
    (executeItem fid it env).destroyCalls = 1 ∧
      executeItem fid it env2 = executeItem fid it env :=
  ⟨executeItem_destroy_once fid it env h,
    executeItem_destroyFails_irrel fid it env env2 huuid hbeh hsa hca hms⟩

theorem executeItem_teardown_amended_witness :
    (executeItem "fn" "aa" wEnvOk).destroyCalls = 1 ∧
      executeItem "fn" "aa"
          ⟨"0123456789abcdef",
            RunBehavior.runOk
              ⟨["__FLARE_RESULT__cafe__FLARE_RESULT__"], [], none⟩,
            true, "t0", "t1", 5⟩
        = executeItem "fn" "aa" wEnvOk :=
  executeItem_teardown_amended "fn" "aa" wEnvOk
    ⟨"0123456789abcdef",
      RunBehavior.runOk ⟨["__FLARE_RESULT__cafe__FLARE_RESULT__"], [], none⟩,
      true, "t0", "t1", 5⟩
    rfl rfl rfl rfl rfl rfl

/-- C6: decoding follows the strict precedence of the code: (1) a
runtime-reported error is the outcome error no matter what stdout holds;
(2) otherwise a matched error sentinel pair in stderr makes the outcome a
failure carrying the matched message, again regardless of stdout; (3)
otherwise, if stderr is free of the sentinel token and stdout has no result
match, the outcome is the protocol-extraction failure with raw stdout and
stderr attached; (4) otherwise the hex string between the result sentinels
is the successful outcome's result. -/
theorem decode_sentinel_precedence (sid sa ca : String) (ms : Nat)
    (r : SandboxResult) :
    (∀ e, r.error = some e →
      (decodeSandboxResult sid sa ca ms r).success = false ∧
        (decodeSandboxResult sid sa ca ms r).error = some e) ∧
    (∀ g, r.error = none →
      findSentinel markerE (joinLines r.stderrLines).data = some g →
      (decodeSandboxResult sid sa ca ms r).success = false ∧
        (decodeSandboxResult sid sa ca ms r).error = some (String.mk g)) ∧
    (r.error = none →
      containsTok markerE (joinLines r.stderrLines).data = false →
      findSentinel markerR (joinLines r.stdoutLines).data = none →
      (decodeSandboxResult sid sa ca ms r).success = false ∧
        (decodeSandboxResult sid sa ca ms r).error
          = some "Failed to extract result from output" ∧
        (decodeSandboxResult sid sa ca ms r).stdout
          = some (joinLines r.stdoutLines) ∧
        (decodeSandboxResult sid sa ca ms r).stderr
          = some (joinLines r.stderrLines)) ∧
    (∀ g, r.error = none →
      containsTok markerE (joinLines r.stderrLines).data = false →
      findSentinel markerR (joinLines r.stdoutLines).data = some g →
      (decodeSandboxResult sid sa ca ms r).success = true ∧
        (decodeSandboxResult sid sa ca ms r).result = some (String.mk g)) := by
  refine ⟨?_, ?_, ?_, ?_⟩
  · intro e he
    constructor <;> simp [decodeSandboxResult, he]
  · intro g he hfind
    have hc : containsTok markerE (joinLines r.stderrLines).data = true :=
      containsTok_of_findSentinel hfind
    constructor <;> simp [decodeSandboxResult, he, hc, hfind]
  · intro he hc hfind
    refine ⟨?_, ?_, ?_, ?_⟩ <;> simp [decodeSandboxResult, he, hc, hfind]
  · intro g he hc hfind
    constructor <;> simp [decodeSandboxResult, he, hc, hfind]

theorem decode_sentinel_precedence_witness :
    (decodeSandboxResult "sid" "t0" "t1" 3
        ⟨["__FLARE_RESULT__cafe__FLARE_RESULT__"],
          ["__FLARE_ERROR__boom__FLARE_ERROR__"], none⟩).success = false ∧
      (decodeSandboxResult "sid" "t0" "t1" 3
        ⟨["__FLARE_RESULT__cafe__FLARE_RESULT__"],
          ["__FLARE_ERROR__boom__FLARE_ERROR__"], none⟩).error
        = some (String.mk "boom".data) :=
  (decode_sentinel_precedence "sid" "t0" "t1" 3
    ⟨["__FLARE_RESULT__cafe__FLARE_RESULT__"],
      ["__FLARE_ERROR__boom__FLARE_ERROR__"], none⟩).2.1
    "boom".data rfl (by decide)

/-- C7 counterexample: the code's regex group `(.*)` is greedy, not
non-greedy: for a stderr line holding `__FLARE_ERROR__m1__FLARE_ERROR__`
followed by a second pair on the same line, the reported outcome error is
the whole span up to the last closing marker — not `m1` as the claim
states. -/
theorem errorMatch_greedy_counterexample :
    (decodeSandboxResult "sid" "t0" "t1" 3
        ⟨[],
          ["__FLARE_ERROR__m1__FLARE_ERROR__ x __FLARE_ERROR__m2__FLARE_ERROR__"],
          none⟩).error
      = some "m1__FLARE_ERROR__ x __FLARE_ERROR__m2" ∧
    ("m1__FLARE_ERROR__ x __FLARE_ERROR__m2" : String) ≠ "m1" := by
  constructor
  · decide
  · decide

/-- C7 (amended): the match is greedy: when stderr is exactly
`__FLARE_ERROR__`, a newline-free body `g`, and a closing
`__FLARE_ERROR__`, the extracted message is the whole maximal body `g` —
the span reaching the last closing marker — even when `g` itself contains
further sentinel pairs. -/
theorem errorMatch_greedy_amended (g : List Char) (hnl : '\n' ∉ g) :
    findSentinel markerE (markerE ++ g ++ markerE) = some g :=
  findSentinel_append g (by decide) hnl

theorem errorMatch_greedy_amended_witness :
    findSentinel markerE
        (markerE ++ "m1__FLARE_ERROR__ x __FLARE_ERROR__m2".data ++ markerE)
      = some "m1__FLARE_ERROR__ x __FLARE_ERROR__m2".data :=
  errorMatch_greedy_amended "m1__FLARE_ERROR__ x __FLARE_ERROR__m2".data
    (by decide)

/-- C8 counterexample: the per-item naming policy is
`functionId ++ "-" ++ uuid.take 8`; the claim quantifies over *every*
possible sequence of random draws, but a sequence that repeats a draw gives
two distinct items (indices 0 and 1) the same session identifier. -/
theorem session_id_collision_counterexample :
    sessionIdAt "fn" (fun _ => "0123456789abcdef") 0
        = sessionIdAt "fn" (fun _ => "0123456789abcdef") 1 ∧
      (0 : Nat) ≠ 1 :=
  ⟨rfl, by decide⟩

/-- C8 (amended): two items of a batch receive distinct session identifiers
whenever the first 8 characters of their uuid draws differ; distinctness is
conditional on the randomness, not guaranteed for every draw sequence. -/
theorem session_id_distinct_amended (fid : String) (draws : Nat → String)
    (j k : Nat) (hdraw : (draws j).take 8 ≠ (draws k).take 8) :
    sessionIdAt fid draws j ≠ sessionIdAt fid draws k := by
  intro heq
  apply hdraw
  have hdata := congrArg String.data heq
  simp only [sessionIdAt, mkSandboxId, String.data_append] at hdata
  rw [List.append_assoc, List.append_assoc] at hdata
  have h2 : (((draws j).take 8).data : List Char) = ((draws k).take 8).data :=
    List.append_cancel_left (List.append_cancel_left hdata)
  exact String.ext h2

theorem session_id_distinct_amended_witness :
    sessionIdAt "fn" (fun k => if k = 0 then "aaaaaaaa0" else "bbbbbbbb1") 0
      ≠ sessionIdAt "fn" (fun k => if k = 0 then "aaaaaaaa0" else "bbbbbbbb1") 1 :=
  session_id_distinct_amended "fn"
    (fun k => if k = 0 then "aaaaaaaa0" else "bbbbbbbb1") 0 1 (by decide)

/-- C9 counterexample: a request with `max_containers = 0` is not rejected:
`body.max_containers || 10` treats the falsy `0` as "unspecified", silently
substitutes the default cap 10, and the batch is dispatched normally with a
200 response — no request-validation failure occurs before dispatch. -/
theorem cap_zero_dispatch_counterexample :
    (handleExecuteBatch
          ⟨"fn", "def g(x): return x", "g", some ["aa"], some 0, none⟩
          (fun _ => wEnvOk)).map statusOf
        = some 200 ∧
      effectiveCap (some 0) = 10 := by
  constructor
  · decide
  · decide

/-- C9 (amended): the code performs no positivity validation of the
concurrency cap: a cap of `0` is replaced by the default `10` before
chunking and dispatch proceeds, and a negative cap is passed straight to
`chunk`, whose loop never terminates on a non-empty items list (modelled as
`chunkJS = none`, i.e. no response is ever produced). -/
theorem cap_no_validation_amended (m : Int) :
    effectiveCap (some 0) = 10 ∧
      (m < 0 → effectiveCap (some m) = m ∧
        ∀ (l : List String), l ≠ [] → chunkJS l m = none) := by
  refine ⟨rfl, fun hm => ⟨?_, ?_⟩⟩
  · simp only [effectiveCap]
    rw [if_neg (by omega)]
  · intro l hl
    rw [chunkJS, if_pos (by omega)]
    simp [List.isEmpty_iff, hl]

theorem cap_no_validation_amended_witness :
    effectiveCap (some 0) = 10 ∧
      ((-1 : Int) < 0 → effectiveCap (some (-1)) = -1 ∧
        ∀ (l : List String), l ≠ [] → chunkJS l (-1) = none) :=
  cap_no_validation_amended (-1)

/-- C10: when stderr contains the sentinel token `__FLARE_ERROR__` but no
single-line `__FLARE_ERROR__…__FLARE_ERROR__` pair (e.g. the markers are
separated by a newline), the branch is entered via `includes` but the regex
match fails, and the outcome error is the literal string "Unknown error" —
not a protocol-extraction error and not a partial message. -/
theorem decode_unknown_error (sid sa ca : String) (ms : Nat)
    (r : SandboxResult)
    (he : r.error = none)
    (hc : containsTok markerE (joinLines r.stderrLines).data = true)
    (hfind : findSentinel markerE (joinLines r.stderrLines).data = none) :
    (decodeSandboxResult sid sa ca ms r).success = false ∧
      (decodeSandboxResult sid sa ca ms r).error = some "Unknown error" := by
  constructor <;> simp [decodeSandboxResult, he, hc, hfind]

theorem decode_unknown_error_witness :
    (decodeSandboxResult "sid" "t0" "t1" 3
        ⟨[], ["__FLARE_ERROR__oops", "__FLARE_ERROR__"], none⟩).success = false ∧
      (decodeSandboxResult "sid" "t0" "t1" 3
        ⟨[], ["__FLARE_ERROR__oops", "__FLARE_ERROR__"], none⟩).error
        = some "Unknown error" :=
  decode_unknown_error "sid" "t0" "t1" 3
    ⟨[], ["__FLARE_ERROR__oops", "__FLARE_ERROR__"], none⟩
    rfl (by decide) (by decide)
